import Mathlib

/-
Shallow embedding of `showRepo.py` (OrderMyRepos): the record loader, the
filter/sort pipeline (`filter_data_table`), the presentation formatter and the
file sink, together with theorems about the behaviour of each stage.

Python strings are modelled as `List Char` (`Str`); Python's `str.lower` is
modelled per code point with `Char.toLower`.  `sys.exit(1)`, the uncaught
`NameError` in the sort-by-repo handler, and `ZeroDivisionError` are modelled
as the `Abort` error of an `Except` computation.  Printed warnings are
modelled as a returned list of `Warning` tags.
-/

abbrev Str := List Char

/-- Python `str.lower()` applied code point by code point. -/
def lowerStr (s : Str) : Str := s.map Char.toLower

/-- Python `str.strip()`: remove leading and trailing whitespace. -/
def pyStrip (s : Str) : Str :=
  ((s.dropWhile Char.isWhitespace).reverse.dropWhile Char.isWhitespace).reverse

/-- Python truthiness of an optional string (argparse default `None`):
`None` and `""` are falsy. -/
def truthyS : Option Str → Bool
  | some s => !s.isEmpty
  | none => false

/-- Python truthiness of an optional int (argparse default `None`):
`None` and `0` are falsy. -/
def truthyI : Option Int → Bool
  | some n => n != 0
  | none => false

/-- Python slice `l[:n]` (negative `n` counts from the end). -/
def pySliceTo (n : Int) (l : List α) : List α :=
  l.take (if n < 0 then ((l.length : Int) + n).toNat else n.toNat)

/-- Python slice `l[i:]` (negative `i` counts from the end). -/
def pySliceFrom (i : Int) (l : List α) : List α :=
  l.drop (if i < 0 then ((l.length : Int) + i).toNat else i.toNat)

/-- Python `<` on strings: lexicographic comparison by code point, used by
`sorted`. -/
def strLe : Str → Str → Bool
  | [], _ => true
  | _ :: _, [] => false
  | x :: xs, y :: ys => decide (x < y) || (x == y && strLe xs ys)

/-- Insert into a sorted list, before the first element that is not smaller:
together with `insertionSort` this is a stable sort, as Python's `sorted`. -/
def insertSorted (le : α → α → Bool) (x : α) : List α → List α
  | [] => [x]
  | y :: ys => if le x y then x :: y :: ys else y :: insertSorted le x ys

/-- Stable sort modelling Python's `sorted(l, key=...)` (the key is baked into
`le`). -/
def insertionSort (le : α → α → Bool) : List α → List α
  | [] => []
  | x :: xs => insertSorted le x (insertionSort le xs)

/-- Python `str.split(c)` for a single-character separator `c`: chunks between
occurrences of `c`; always returns at least one chunk. -/
def splitChar (c : Char) : List Char → List (List Char)
  | [] => [[]]
  | x :: xs =>
    let r := splitChar c xs
    if x = c then [] :: r
    else (x :: r.headD []) :: r.tail

/-- Python `str.split("--")`: chunks between non-overlapping, leftmost-first
occurrences of the two-character separator `--`. -/
def splitSep2 : List Char → List (List Char)
  | [] => [[]]
  | '-' :: '-' :: rest => [] :: splitSep2 rest
  | x :: xs =>
    let r := splitSep2 xs
    (x :: r.headD []) :: r.tail

/-- One parsed line of the repositories file.  The file columns, in order,
are: URL, name (`author/repo`), OS scope, language, description
(`showRepo.py` accesses them as `row[0] .. row[4]`). -/
structure Record where
  url : Str
  name : Str
  os_scope : Str
  language : Str
  description : Str
deriving DecidableEq, Repr

/-- The positional view `[row[0], row[1], row[2], row[3], row[4]]` of a
record, as `showRepo.py` handles rows. -/
def rowFields (r : Record) : List Str :=
  [r.url, r.name, r.os_scope, r.language, r.description]

/-- The argparse namespace of `showRepo.py` (flags relevant to the pipeline). -/
structure Flags where
  filename : Str
  search : Option Str
  only_language : Option Str
  only_os : Option Str
  copy : Bool
  output : Option Str
  first : Option Int
  last : Option Int
  table_format : Str
  no_author : Bool
  sort_by_author : Bool
  sort_by_repo : Bool
  sort_by_language : Bool
  show_stats : Bool
  no_color : Bool
deriving DecidableEq, Repr

/-- Warnings printed by `filter_data_table` (modelled as tags). -/
inductive Warning where
  | sortLangWithOnlyLang
  | multipleSorts
  | firstExceedsRows
  | lastExceedsRows
  | bothFirstLast
deriving DecidableEq, Repr

/-- How an invocation of the pipeline can terminate abnormally:
`sys.exit(1)`, the uncaught `NameError` raised by the sort-by-repo except
handler (it references the undefined `flag_var`), or `ZeroDivisionError`
in the statistics. -/
inductive Abort where
  | exit1
  | nameError
  | zeroDiv
deriving DecidableEq, Repr

/-- `read_columns_in_repository_file`: each line is stripped, split on `--`,
and each column stripped; one row is appended for EVERY line of the file
(the loop has no emptiness test).  The file is modelled as its list of
lines. -/
def read_columns_in_repository_file (lines : List Str) : List (List Str) :=
  lines.map (fun line => (splitSep2 (pyStrip line)).map pyStrip)

instance {ε α : Type} [DecidableEq ε] [DecidableEq α] : DecidableEq (Except ε α)
  | .error e, .error f =>
    decidable_of_iff (e = f)
      (by constructor
          · intro h; rw [h]
          · intro h; injection h)
  | .error _, .ok _ => isFalse (by intro h; cases h)
  | .ok _, .error _ => isFalse (by intro h; cases h)
  | .ok a, .ok b =>
    decidable_of_iff (a = b)
      (by constructor
          · intro h; rw [h]
          · intro h; injection h)

/-- Number of non-empty lines of a file (the quantity named by the spec's
loader property; defined here only to state that property). -/
def countNonEmptyLines (lines : List Str) : Nat :=
  (lines.filter (fun l => !l.isEmpty)).length

/-- `delete_git_extension`: drop a trailing `".git"` (`url[-4:] == '.git'`),
otherwise return the url unchanged (a warning is printed in that case). -/
def delete_git_extension (url : Str) : Str :=
  if ".git".toList.isSuffixOf url then url.take (url.length - 4) else url

/-- The per-record transform of the `--no-author` block:
`row[1].split('/')[1]`, keeping the name unchanged when the index raises
(`except: pass`). -/
def noAuthorName (n : Str) : Str :=
  match splitChar '/' n with
  | _ :: b :: _ => b
  | _ => n

/-- The `--no-author` pass over the whole table. -/
def no_author_transform (rs : List Record) : List Record :=
  rs.map (fun r => { r with name := noAuthorName r.name })

/-- The `--sort-by-repo` block: `sorted(table, key=lambda x: x[1].split('/')[1])`
inside `try`.  If some name has no `/` the key function raises `IndexError`;
the `except` handler then evaluates the undefined variable `flag_var`, so an
uncaught `NameError` terminates the program. -/
def sortByRepoStep (rs : List Record) : Except Abort (List Record) :=
  if rs.all (fun r => ((splitChar '/' r.name).get? 1).isSome) then
    .ok (insertionSort
      (fun a b => strLe ((splitChar '/' a.name).getD 1 [])
                        ((splitChar '/' b.name).getD 1 [])) rs)
  else
    .error .nameError

/-- The `--only-language` block: keep rows with `row[3].lower() ==
query.lower()`; an empty result is `sys.exit(1)`. -/
def onlyLanguageStep (q : Str) (rs : List Record) : Except Abort (List Record) :=
  let t := rs.filter (fun r => lowerStr r.language == lowerStr q)
  if t.isEmpty then .error .exit1 else .ok t

/-- The keep-predicate of the `--search` block: scan the enumerated columns,
skip indices 0, 2, 3 (url, OS, language), keep on the first column that
contains the query case-insensitively. -/
def searchMatchesRow (q : Str) (r : Record) : Bool :=
  (rowFields r).enum.any (fun ic =>
    !(ic.1 == 0 || ic.1 == 2 || ic.1 == 3) && decide ((lowerStr q) <:+: (lowerStr ic.2)))

/-- The `--search` block: filter by `searchMatchesRow`; an empty result is
`sys.exit(1)`. -/
def searchStep (q : Str) (rs : List Record) : Except Abort (List Record) :=
  let t := rs.filter (searchMatchesRow q)
  if t.isEmpty then .error .exit1 else .ok t

/-- The `--only-os` block: normalize the value with the case-insensitive
regexes `^w(indows)?$`, `^l(inux)?$`, `^a(ny)?$` (invalid value:
`sys.exit(1)`), filter on `row[2]`, and `sys.exit(1)` on an empty result. -/
def onlyOsStep (s : Str) (rs : List Record) : Except Abort (List Record) :=
  let ls := lowerStr s
  let osv? : Option Str :=
    if ls == "w".toList || ls == "windows".toList then some "Windows".toList
    else if ls == "l".toList || ls == "linux".toList then some "Linux".toList
    else if ls == "a".toList || ls == "any".toList then some "Any".toList
    else none
  match osv? with
  | none => .error .exit1
  | some osv =>
    let t := rs.filter (fun r => r.os_scope == osv)
    if t.isEmpty then .error .exit1 else .ok t

/-- The `--first` block: when `first` is truthy, either warn (leaving the
table whole) if `first > len(table)`, or slice `table[:first]`. -/
def firstStep (first : Option Int) (rs : List Record) :
    List Record × List Warning :=
  if truthyI first then
    let n := first.getD 0
    if n > (rs.length : Int) then (rs, [Warning.firstExceedsRows])
    else (pySliceTo n rs, [])
  else (rs, [])

/-- The `--last` block: when `last` is truthy, warn if `first` is also
truthy; then either warn (leaving the table whole) when `first` is falsy
and `last > len(table)`, or — in EVERY other case, also when `first` was
given — slice `table[-last:]`. -/
def lastStep (first last : Option Int) (rs : List Record) :
    List Record × List Warning :=
  if truthyI last then
    let n := last.getD 0
    let w1 := if truthyI first then [Warning.bothFirstLast] else []
    if !truthyI first && decide (n > (rs.length : Int)) then
      (rs, w1 ++ [Warning.lastExceedsRows])
    else
      (pySliceFrom (-n) rs, w1)
  else (rs, [])

/-- The truncation portion of the pipeline: the `--first` block followed by
the `--last` block, accumulating their warnings. -/
def truncationSteps (first last : Option Int) (rs : List Record) :
    List Record × List Warning :=
  let a := firstStep first rs
  let b := lastStep first last a.1
  (b.1, a.2 ++ b.2)

/-- Python `round` (banker's rounding, half to even) on a rational. -/
def roundHalfEven (q : ℚ) : ℤ :=
  let f := ⌊q⌋
  let r := q - f
  if r < 1/2 then f
  else if 1/2 < r then f + 1
  else if f % 2 = 0 then f else f + 1

/-- `get_percentage`: `round(number/(1.0*total) * 100, 1)`.  Python's float
division raises `ZeroDivisionError` when `total == 0`; the value is modelled
exactly on rationals. -/
def get_percentage (number total : Nat) : Except Abort ℚ :=
  if total = 0 then .error .zeroDiv
  else .ok ((roundHalfEven ((number : ℚ) / (total : ℚ) * 100 * 10) : ℚ) / 10)

/-- `stats_table_elements`: the Any/Linux/Windows percentages it prints,
each computed by `get_percentage(count, len(OS_list))` where `OS_list` has
one entry per record. -/
def stats_table_elements (rs : List Record) : Except Abort (ℚ × ℚ × ℚ) := do
  let osl := rs.map (fun r => r.os_scope)
  let a ← get_percentage (osl.count "Any".toList) osl.length
  let l ← get_percentage (osl.count "Linux".toList) osl.length
  let w ← get_percentage (osl.count "Windows".toList) osl.length
  pure (a, l, w)

/-- `filter_data_table`: the full pipeline in source order — sort-by-author,
sort-by-language, sort-by-repo, only-language, search, only-os, first, last,
no-author, copy, show-stats.  Returns the final table, the warning tags
printed on the success path, and the text placed on the clipboard (if any). -/
def filter_data_table (f : Flags) (rs0 : List Record) :
    Except Abort (List Record × List Warning × Option Str) := do
  let rs1 := if f.sort_by_author then
      insertionSort (fun a b => strLe a.name b.name) rs0
    else rs0
  let w2 : List Warning :=
    if f.sort_by_language && truthyS f.only_language then
      [Warning.sortLangWithOnlyLang]
    else []
  let rs2 := if f.sort_by_language then
      insertionSort (fun a b => strLe a.language b.language) rs1
    else rs1
  let s3 ← if f.sort_by_repo then
      match sortByRepoStep rs2 with
      | .error e => throw e
      | .ok t => pure (t, [Warning.multipleSorts])
    else pure (rs2, ([] : List Warning))
  let rs4 ← if truthyS f.only_language then
      onlyLanguageStep (f.only_language.getD []) s3.1
    else pure s3.1
  let rs5 ← if truthyS f.search then searchStep (f.search.getD []) rs4
    else pure rs4
  let rs6 ← if truthyS f.only_os then onlyOsStep (f.only_os.getD []) rs5
    else pure rs5
  let s7 := truncationSteps f.first f.last rs6
  let rs8 := if f.no_author then no_author_transform s7.1 else s7.1
  let clip ← if f.copy then
      match rs8 with
      | [] => throw Abort.exit1
      | [r] => pure (some (delete_git_extension r.url))
      | rs => pure (some (List.intercalate ['\n']
          (rs.map (fun r => delete_git_extension r.url))))
    else pure none
  if f.show_stats then
    match stats_table_elements rs8 with
    | .error e => throw e
    | .ok _ => pure ()
  else pure ()
  pure (rs8, w2 ++ s3.2 ++ s7.2, clip)

/-- `create_table_elements`: the displayed body drops column 0 (the url) of
every filtered row — `[[item for item in sublist[1:]] for sublist in rows]`;
with colors enabled each cell is additionally wrapped in ANSI codes, so this
is the uncolored row data of the displayed table. -/
def table_to_show (rs : List Record) : List (List Str) :=
  rs.map (fun r => [r.name, r.os_scope, r.language, r.description])

/-- The description-column width computed by `create_table_elements` and
reused by both the terminal print and `save_file`. -/
def max_allowed_length (width : Int) (rs : List Record) : Int :=
  width -
    (rs.foldl
      (fun m r => max m (r.name.length + r.os_scope.length + r.language.length + 12))
      0 : Nat) - 12

/-- The row data `save_file` writes: `main` passes the FILTERED raw rows
(`filtered_printable_data_table`, all 5 columns, url included) to
`save_file`, which tabulates them directly. -/
def save_file_rows (rs : List Record) : List (List Str) :=
  rs.map rowFields

/-! ### Helper lemmas about `splitChar` -/

theorem splitChar_ne_nil (c : Char) (l : List Char) : splitChar c l ≠ [] := by
  cases l with
  | nil => simp [splitChar]
  | cons x xs =>
    simp only [splitChar]
    split <;> simp

theorem not_mem_of_mem_splitChar (c : Char) (l p : List Char)
    (hp : p ∈ splitChar c l) : c ∉ p := by
  induction l generalizing p with
  | nil =>
    simp [splitChar] at hp
    subst hp; simp
  | cons x xs ih =>
    simp only [splitChar] at hp
    cases hr : splitChar c xs with
    | nil => exact absurd hr (splitChar_ne_nil c xs)
    | cons h t =>
      rw [hr] at hp
      by_cases hxc : x = c
      · rw [if_pos hxc] at hp
        rcases List.mem_cons.mp hp with h1 | h1
        · subst h1; simp
        · exact ih p (hr ▸ h1)
      · rw [if_neg hxc] at hp
        simp only [List.headD_cons, List.tail_cons] at hp
        rcases List.mem_cons.mp hp with h1 | h1
        · subst h1
          intro hmem
          rcases List.mem_cons.mp hmem with h2 | h2
          · exact hxc h2.symm
          · exact ih h (hr ▸ List.mem_cons_self h t) h2
        · exact ih p (hr ▸ List.mem_cons_of_mem h h1)

theorem splitChar_of_not_mem (c : Char) (l : List Char) (h : c ∉ l) :
    splitChar c l = [l] := by
  induction l with
  | nil => simp [splitChar]
  | cons x xs ih =>
    simp only [List.mem_cons, not_or] at h
    have hx : ¬ (x = c) := fun he => h.1 he.symm
    simp only [splitChar, if_neg hx, ih h.2, List.headD_cons, List.tail_cons]

theorem noAuthorName_of_not_mem (n : Str) (h : '/' ∉ n) : noAuthorName n = n := by
  unfold noAuthorName
  rw [splitChar_of_not_mem _ _ h]

theorem noAuthorName_idem (n : Str) :
    noAuthorName (noAuthorName n) = noAuthorName n := by
  cases hs : splitChar '/' n with
  | nil => exact absurd hs (splitChar_ne_nil _ _)
  | cons a t =>
    cases t with
    | nil =>
      have h1 : noAuthorName n = n := by unfold noAuthorName; rw [hs]
      rw [h1, h1]
    | cons b t2 =>
      have h1 : noAuthorName n = b := by unfold noAuthorName; rw [hs]
      have hb : '/' ∉ b :=
        not_mem_of_mem_splitChar _ _ _
          (hs ▸ List.mem_cons_of_mem a (List.mem_cons_self b t2))
      rw [h1, noAuthorName_of_not_mem b hb]

/-! ### Claim theorems -/

/-- Claim C1 (code_bug evidence): with `--first 2 --last 1` on a three-row
table, the truncation portion of `filter_data_table` prints the
"`--first` wins" warning but then ALSO applies the `last` slice: the result
is the last 1 of the first 2 rows, `[b]`, not the first 2 rows `[a, b]`
that the warning and the spec promise. -/
theorem truncation_applies_last_after_first :
    truncationSteps (some 2) (some 1)
      ([⟨[], ['a'], [], [], []⟩, ⟨[], ['b'], [], [], []⟩, ⟨[], ['c'], [], [], []⟩] :
        List Record) =
      ([⟨[], ['b'], [], [], []⟩], [Warning.bothFirstLast]) := by decide

/-- Claim C2 (counterexample): a file whose second line is blank loads into
2 records, while it has only 1 non-empty line — the loader appends a record
for every line, blank or not. -/
theorem load_blank_line_counted :
    (read_columns_in_repository_file ["a--b".toList, []]).length ≠
      countNonEmptyLines ["a--b".toList, []] := by decide

/-- Claim C2 (amended): for every input file, the number of records produced
by the Record Loader equals the TOTAL number of lines of the file; every
line, including an empty one, contributes exactly one record. -/
theorem load_length_eq_total_lines (lines : List Str) :
    (read_columns_in_repository_file lines).length = lines.length := by
  simp [read_columns_in_repository_file]

/-- Claim C5: the `--no-author` pass is idempotent — applying the
author-stripping transform twice to the name fields yields the same list as
applying it once — and a record whose name has no `/` is left unchanged. -/
theorem no_author_transform_idempotent :
    (∀ rs : List Record,
      no_author_transform (no_author_transform rs) = no_author_transform rs) ∧
    (∀ r : Record, '/' ∉ r.name → no_author_transform [r] = [r]) := by
  constructor
  · intro rs
    simp only [no_author_transform, List.map_map]
    apply List.map_congr_left
    intro r _
    simp [Function.comp, noAuthorName_idem]
  · intro r h
    simp only [no_author_transform, List.map_cons, List.map_nil]
    rw [noAuthorName_of_not_mem r.name h]

/-- Claim C5 witness: the idempotence and the no-`/` case at concrete
inputs. -/
theorem no_author_transform_idempotent_witness :
    no_author_transform (no_author_transform
        ([⟨[], "a/b".toList, [], [], []⟩, ⟨[], "plain".toList, [], [], []⟩] :
          List Record)) =
      no_author_transform
        ([⟨[], "a/b".toList, [], [], []⟩, ⟨[], "plain".toList, [], [], []⟩] :
          List Record) ∧
    no_author_transform ([⟨[], "plain".toList, [], [], []⟩] : List Record) =
      ([⟨[], "plain".toList, [], [], []⟩] : List Record) :=
  ⟨no_author_transform_idempotent.1 _,
   no_author_transform_idempotent.2 _ (by decide)⟩

/-- Claim C9 (code_bug evidence): `main` hands `save_file` the filtered raw
rows, so the row data written to the output file still contains the url
column, while the displayed table (`create_table_elements`) drops it — the
written data does not equal the uncolored displayed data. -/
theorem save_file_rows_differ_from_display :
    save_file_rows
        ([⟨"u".toList, "n".toList, "Any".toList, "Go".toList, "d".toList⟩] :
          List Record) ≠
      table_to_show
        ([⟨"u".toList, "n".toList, "Any".toList, "Go".toList, "d".toList⟩] :
          List Record) := by decide

/-- Claim C10: the stats step is partial — `get_percentage` fails on a zero
total — and that error branch is reachable from the public interface: an
empty input file loads to zero records, and `filter_data_table` with only
`--show-stats` set reaches the division by zero. -/
theorem stats_division_by_zero_reachable :
    read_columns_in_repository_file [] = [] ∧
    get_percentage 0 0 = Except.error Abort.zeroDiv ∧
    filter_data_table
        ⟨[], none, none, none, false, none, none, none, [],
          false, false, false, false, true, false⟩ [] =
      Except.error Abort.zeroDiv :=
  ⟨rfl, rfl, by decide⟩

/-- Claim C3 (counterexample): with sort-by-repo enabled, a table containing
one record whose name has no `/` makes the sort step terminate the program
(the `IndexError` of the key function is caught, but the handler evaluates
the undefined variable `flag_var` and raises `NameError`): the pipeline
aborts instead of warning and continuing. -/
theorem sort_by_repo_no_slash_aborts_example :
    sortByRepoStep
        ([⟨[], "noslash".toList, [], [], []⟩, ⟨[], "a/b".toList, [], [], []⟩] :
          List Record) =
      Except.error Abort.nameError := by decide

/-- Claim C3 (amended): with sort-by-repo enabled, whenever at least one
record's name contains no `/`, the whole sort raises and the pipeline aborts
with the handler's `NameError`; no record is sorted and no record is kept in
place. -/
theorem sort_by_repo_no_slash_raises (rs : List Record)
    (h : ∃ r ∈ rs, '/' ∉ r.name) :
    sortByRepoStep rs = Except.error Abort.nameError := by
  obtain ⟨r, hr, hslash⟩ := h
  unfold sortByRepoStep
  rw [if_neg]
  intro hall
  rw [List.all_eq_true] at hall
  have h2 := hall r hr
  rw [splitChar_of_not_mem _ _ hslash] at h2
  simp at h2

/-- Claim C3 witness: the amended statement at a one-record table whose name
has no `/`. -/
theorem sort_by_repo_no_slash_raises_witness :
    sortByRepoStep ([⟨[], "tool".toList, [], [], []⟩] : List Record) =
      Except.error Abort.nameError :=
  sort_by_repo_no_slash_raises _
    ⟨⟨[], "tool".toList, [], [], []⟩, by decide, by decide⟩

/-- Claim C4 (counterexample): stripping `.git` is not idempotent — on
`"a.git.git"` one application yields `"a.git"` and a second application
yields `"a"`. -/
theorem strip_git_double_suffix_not_idempotent :
    delete_git_extension (delete_git_extension "a.git.git".toList) ≠
      delete_git_extension "a.git.git".toList := by decide

/-- Claim C4 (amended): for every url that does not end in `".git.git"`,
applying the `.git` strip twice yields the same string as applying it
once. -/
theorem strip_git_idempotent_of_no_double_suffix (url : Str)
    (h : ¬ (".git.git".toList <:+ url)) :
    delete_git_extension (delete_git_extension url) = delete_git_extension url := by
  by_cases hs : ".git".toList <:+ url
  · obtain ⟨p, hp⟩ := hs
    have hlen : (".git".toList : List Char).length = 4 := rfl
    have hd1 : delete_git_extension url = p := by
      unfold delete_git_extension
      rw [if_pos (List.isSuffixOf_iff_suffix.mpr ⟨p, hp⟩)]
      rw [← hp, List.length_append, hlen, Nat.add_sub_cancel, List.take_left]
    have hps : ¬ (".git".toList <:+ p) := by
      intro hq
      obtain ⟨t, ht⟩ := hq
      apply h
      refine ⟨t, ?_⟩
      have hgg : (".git.git".toList : List Char) = ".git".toList ++ ".git".toList := rfl
      rw [hgg, ← List.append_assoc, ht, hp]
    have hd2 : delete_git_extension p = p := by
      unfold delete_git_extension
      rw [if_neg]
      intro hb
      exact hps (List.isSuffixOf_iff_suffix.mp hb)
    rw [hd1, hd2]
  · have hd : delete_git_extension url = url := by
      unfold delete_git_extension
      rw [if_neg]
      intro hb
      exact hs (List.isSuffixOf_iff_suffix.mp hb)
    rw [hd, hd]

/-- Claim C4 witness: the amended statement at `"x.git"`, which does not end
in `".git.git"`. -/
theorem strip_git_idempotent_witness :
    ¬ (".git.git".toList <:+ "x.git".toList) ∧
    delete_git_extension (delete_git_extension "x.git".toList) =
      delete_git_extension "x.git".toList :=
  ⟨by decide, strip_git_idempotent_of_no_double_suffix _ (by decide)⟩

/-- Claim C6: the `--only-language` filter returns exactly the records whose
language field case-insensitively equals the query (membership in the result
is equivalent to membership in the input plus the case-insensitive equality),
and when no record matches it exits with code 1. -/
theorem only_language_filter_spec (q : Str) (rs : List Record) :
    (∀ l, onlyLanguageStep q rs = Except.ok l →
      ∀ r : Record, r ∈ l ↔ (r ∈ rs ∧ lowerStr r.language = lowerStr q)) ∧
    ((∀ r ∈ rs, lowerStr r.language ≠ lowerStr q) →
      onlyLanguageStep q rs = Except.error Abort.exit1) := by
  constructor
  · intro l hl r
    simp only [onlyLanguageStep] at hl
    by_cases he : (rs.filter (fun r => lowerStr r.language == lowerStr q)).isEmpty
    · rw [if_pos he] at hl; cases hl
    · rw [if_neg he] at hl
      injection hl with hl
      subst hl
      rw [List.mem_filter]
      simp [beq_iff_eq]
  · intro hnone
    simp only [onlyLanguageStep]
    have hf : rs.filter (fun r => lowerStr r.language == lowerStr q) = [] := by
      rw [List.filter_eq_nil_iff]
      intro r hr
      simp only [beq_iff_eq]
      exact hnone r hr
    rw [hf]
    rfl

/-- Claim C6 witness: the spec's own example — languages `Go, go, Rust`
filtered by `go` keeps the two `Go`/`go` records; instantiated at the `Go`
record. -/
theorem only_language_filter_spec_witness :
    (⟨[], [], [], "Go".toList, []⟩ : Record) ∈
        ([⟨[], [], [], "Go".toList, []⟩, ⟨[], [], [], "go".toList, []⟩] :
          List Record) ↔
      ((⟨[], [], [], "Go".toList, []⟩ : Record) ∈
          ([⟨[], [], [], "Go".toList, []⟩, ⟨[], [], [], "go".toList, []⟩,
            ⟨[], [], [], "Rust".toList, []⟩] : List Record) ∧
        lowerStr "Go".toList = lowerStr "go".toList) :=
  (only_language_filter_spec "go".toList
      ([⟨[], [], [], "Go".toList, []⟩, ⟨[], [], [], "go".toList, []⟩,
        ⟨[], [], [], "Rust".toList, []⟩] : List Record)).1
    ([⟨[], [], [], "Go".toList, []⟩, ⟨[], [], [], "go".toList, []⟩] : List Record)
    (by decide) (⟨[], [], [], "Go".toList, []⟩ : Record)

/-- Claim C7: the `--search` keep-predicate holds for a (well-formed,
5-field) record if and only if the query is a case-insensitive substring of
its name or of its description; a match occurring only in the url, OS or
language column never keeps the record (those enumerate as the skipped
indices 0, 2, 3). -/
theorem search_matches_name_or_description_only (q : Str) (r : Record) :
    searchMatchesRow q r = true ↔
      ((lowerStr q <:+: lowerStr r.name) ∨ (lowerStr q <:+: lowerStr r.description)) := by
  cases r with
  | mk u n o l d =>
    simp [searchMatchesRow, rowFields, List.enum, List.enumFrom, List.any]

/-- Claim C8: when `--first N` is truthy (N ≥ 1), the first-truncation block
returns exactly the first N records in the current order when N ≤ len, and
returns the table unchanged with a warning when N > len. -/
theorem first_truncation_spec (rs : List Record) (n : Nat) (h1 : 1 ≤ n) :
    (n ≤ rs.length → firstStep (some (n : Int)) rs = (rs.take n, [])) ∧
    (rs.length < n → firstStep (some (n : Int)) rs = (rs, [Warning.firstExceedsRows])) := by
  have ht : truthyI (some (n : Int)) = true := by
    simp [truthyI]
    omega
  constructor
  · intro hle
    simp only [firstStep, Option.getD_some]
    rw [if_pos ht, if_neg]
    · simp only [pySliceTo]
      rw [if_neg]
      · simp
      · omega
    · exact_mod_cast not_lt.mpr hle
  · intro hlt
    simp only [firstStep, Option.getD_some]
    rw [if_pos ht, if_pos]
    exact_mod_cast hlt

/-- Claim C8 witness: `--first 1` on a two-row table keeps exactly the first
row with no warning. -/
theorem first_truncation_spec_witness :
    firstStep (some 1)
        ([⟨[], ['a'], [], [], []⟩, ⟨[], ['b'], [], [], []⟩] : List Record) =
      (([⟨[], ['a'], [], [], []⟩] : List Record), []) :=
  (first_truncation_spec
      ([⟨[], ['a'], [], [], []⟩, ⟨[], ['b'], [], [], []⟩] : List Record) 1
      (by decide)).1 (by decide)
